import Mathlib

/-!
# Verification of the file-identifier core of `spacedrive`

Shallow embedding of `core/crates/heavy-lifting/src/file_identifier/mod.rs`:
the batching/chunking loop `dispatch_object_processor_tasks`, the accumulator
merge `accumulate_file_paths_by_cas_id`, the orphan query filter builders
`orphan_path_filters_shallow` / `orphan_path_filters_deep`, and the metadata
extraction routine `FileMetadata::new`.

Rust `HashMap`s that are used only through the `Entry` API (occupied ⇒ extend,
vacant ⇒ insert) are modelled as association lists (`Batch`).  The generic
`Iter: IntoIterator<Item = (CasId, Vec<FilePathToCreateOrLinkObject>)>` input
of the dispatch function is modelled as a list of pairs, with the key type `κ`
(for `CasId`) and element type `α` (for `FilePathToCreateOrLinkObject`) kept
abstract.
-/

namespace FileIdentifier

/-- `const CHUNK_SIZE: usize = 100;` -/
def CHUNK_SIZE : Nat := 100

/-- Association-list model of `HashMap<CasId, Vec<FilePathToCreateOrLinkObject>>`. -/
abbrev Batch (κ α : Type) := List (κ × List α)

variable {κ α : Type}

/-- The `Entry` idiom used in both `dispatch_object_processor_tasks` and
`accumulate_file_paths_by_cas_id`: if the key is occupied, `extend` the stored
vector with `v`; if vacant, insert `v`. -/
def batchInsert [DecidableEq κ] (b : Batch κ α) (k : κ) (v : List α) : Batch κ α :=
  match b with
  | [] => [(k, v)]
  | (k₁, v₁) :: rest =>
    if k₁ = k then (k₁, v₁ ++ v) :: rest else (k₁, v₁) :: batchInsert rest k v

/-- Aggregate number of records in a batch (the quantity tracked by the Rust
local `current_batch_size`). -/
def batchCount (b : Batch κ α) : Nat := (b.map (fun kv => kv.2.length)).sum

/-- The keys of a batch. -/
def batchKeys (b : Batch κ α) : List κ := b.map Prod.fst

/-- All `(key, record)` pairs of a batch, flattened. -/
def batchRecords (b : Batch κ α) : List (κ × α) :=
  b.flatMap (fun kv => kv.2.map (fun a => (kv.1, a)))

/-- Lookup of the list stored at a key (empty when absent). -/
def lookupList [DecidableEq κ] : Batch κ α → κ → List α
  | [], _ => []
  | (k₁, v₁) :: rest, k => if k₁ = k then v₁ else lookupList rest k

/-- The `for` loop of `dispatch_object_processor_tasks`, carrying the mutable
state `(tasks, current_batch, current_batch_size)`.  A group of length
`>= CHUNK_SIZE` is dispatched alone as `HashMap::from([(cas_id, objects)])`;
a smaller group is merged into `current_batch` via the `Entry` API and the
batch is flushed (and the size reset) once `current_batch_size >= CHUNK_SIZE`.
Returns the dispatched units in order together with the final
`(current_batch, current_batch_size)`. -/
def dispatchLoop [DecidableEq κ] :
    List (κ × List α) → Batch κ α → Nat → List (Batch κ α) × Batch κ α × Nat
  | [], current_batch, current_batch_size => ([], current_batch, current_batch_size)
  | (cas_id, objects_to_create_or_link) :: rest, current_batch, current_batch_size =>
    if CHUNK_SIZE ≤ objects_to_create_or_link.length then
      ([(cas_id, objects_to_create_or_link)] ::
          (dispatchLoop rest current_batch current_batch_size).1,
        (dispatchLoop rest current_batch current_batch_size).2)
    else if CHUNK_SIZE ≤ current_batch_size + objects_to_create_or_link.length then
      (batchInsert current_batch cas_id objects_to_create_or_link ::
          (dispatchLoop rest [] 0).1,
        (dispatchLoop rest [] 0).2)
    else
      dispatchLoop rest (batchInsert current_batch cas_id objects_to_create_or_link)
        (current_batch_size + objects_to_create_or_link.length)

/-- `dispatch_object_processor_tasks`: run the loop starting from an empty
accumulator, then flush the final leftover batch if it is non-empty.  Each
dispatched unit is its identifier→records map (the `db`/`sync` handles and the
priority flag carried by `ObjectProcessor::new` do not affect the partition). -/
def dispatch_object_processor_tasks [DecidableEq κ] (file_paths_by_cas_id : List (κ × List α)) :
    List (Batch κ α) :=
  if (dispatchLoop file_paths_by_cas_id ([] : Batch κ α) 0).2.1.isEmpty then
    (dispatchLoop file_paths_by_cas_id ([] : Batch κ α) 0).1
  else
    (dispatchLoop file_paths_by_cas_id ([] : Batch κ α) 0).1 ++
      [(dispatchLoop file_paths_by_cas_id ([] : Batch κ α) 0).2.1]

/-- `accumulate_file_paths_by_cas_id`: fold the input map into the accumulator
with the `Entry` idiom (occupied ⇒ extend, vacant ⇒ insert). -/
def accumulate_file_paths_by_cas_id [DecidableEq κ] :
    Batch κ α → Batch κ α → Batch κ α
  | [], accumulator => accumulator
  | (cas_id, file_paths) :: rest, accumulator =>
    accumulate_file_paths_by_cas_id rest (batchInsert accumulator cas_id file_paths)

/-- A re-grouping of `input` into units that obeys the constraints named by the
spec for the chunker: the concatenation of the units is a permutation of the
input pairs (so no `ContentId` group is split or lost), every unit other than
the final one meets the chunk threshold, and no unit is empty. -/
def validDispatch [DecidableEq κ] (input : List (κ × List α)) (units : List (Batch κ α)) :
    Prop :=
  List.Perm units.flatten input ∧
    (∀ u ∈ units.dropLast, CHUNK_SIZE ≤ batchCount u) ∧ ∀ u ∈ units, u ≠ []

/-- Two distinct groups, each holding exactly `CHUNK_SIZE` records: the code
dispatches them as two standalone units, yet the single unit holding both
groups is a valid dispatch. -/
def c5Input : List (Nat × List Nat) :=
  [(0, List.replicate CHUNK_SIZE 0), (1, List.replicate CHUNK_SIZE 0)]

/-- Insertion of an element at position `n` of a list (at the end if `n`
exceeds the length); used to state that dispatching a standalone unit only
inserts it into the unit stream, leaving all other units unchanged. -/
def insertAt {β : Type} : Nat → β → List β → List β
  | 0, a, l => a :: l
  | _ + 1, a, [] => [a]
  | n + 1, a, x :: l => x :: insertAt n a l

/-! ### `FileMetadata::new` -/

/-- `ObjectKind` (from the `sd_file_ext` crate), abridged to what the claims
need; `Unknown` is the default used when extension resolution fails. -/
inductive ObjectKind where
  | Unknown
  | Document
  | Image
  deriving DecidableEq

/-- Snapshot of `std::fs::Metadata` as consulted by `FileMetadata::new`:
only `is_dir()` and `len()` are read. -/
structure FsMetadata where
  is_dir : Bool
  len : Nat
  deriving DecidableEq

/-- The `FileMetadata` struct: `cas_id`, `kind` and the metadata snapshot. -/
structure FileMetadata where
  cas_id : Option String
  kind : ObjectKind
  fs_metadata : FsMetadata
  deriving DecidableEq

/-- Outcome of `FileMetadata::new`: success, an `Err(FileIOError)` tagged with
the offending path, or the `assert!` panic. -/
inductive FMResult (P Err : Type) where
  | ok (m : FileMetadata)
  | ioError (path : P) (e : Err)
  | panicked (msg : String)
  deriving DecidableEq

/-- The effectful collaborators of `FileMetadata::new`, kept abstract:
`join` models `location_path.as_ref().join(iso_file_path)`; `fs_metadata`
models `tokio::fs::metadata`; `resolve_conflicting` and `ext_to_kind` model
`Extension::resolve_conflicting(&path, false).await` and the `Into::into`
conversion of its result (the `sd_file_ext` crate lives outside this module).
Modelled from the spec: `generate_cas_id` (the `cas_id` module) is an opaque
deterministic content-identifier primitive that may fail with an I/O error. -/
structure FileIdentEnv (L I P E Err : Type) where
  join : L → I → P
  fs_metadata : P → Except Err FsMetadata
  resolve_conflicting : P → Option E
  ext_to_kind : E → ObjectKind
  generate_cas_id : P → Nat → Except Err String

/-- `FileMetadata::new`: read the filesystem metadata (propagating failures as
tagged I/O errors), `assert!` that the entry is not a directory, derive the
kind with `Unknown` as the fallback, and compute a `cas_id` exactly when the
length is non-zero (propagating generation failures as tagged I/O errors). -/
def FileMetadata.new {L I P E Err : Type} (env : FileIdentEnv L I P E Err)
    (location_path : L) (iso_file_path : I) : FMResult P Err :=
  match env.fs_metadata (env.join location_path iso_file_path) with
  | .error e => .ioError (env.join location_path iso_file_path) e
  | .ok fs_md =>
    if fs_md.is_dir then
      .panicked "We can't generate cas_id for directories"
    else
      match
        if fs_md.len ≠ 0 then
          (env.generate_cas_id (env.join location_path iso_file_path) fs_md.len).map some
        else
          Except.ok none
      with
      | .error e => .ioError (env.join location_path iso_file_path) e
      | .ok cas_id =>
        .ok
          { cas_id := cas_id
            kind :=
              match env.resolve_conflicting (env.join location_path iso_file_path) with
              | some ext => env.ext_to_kind ext
              | none => ObjectKind.Unknown
            fs_metadata := fs_md }

/-! ### The orphan query filters -/

/-- Model of a `file_path` table row; nullable columns are `Option`s, with the
`size_in_bytes_bytes` column holding the big-endian byte encoding of the
size. -/
structure FilePathRecord where
  id : Int
  location_id : Option Int
  materialized_path : Option String
  is_dir : Option Bool
  size_in_bytes_bytes : Option (List Nat)
  cas_id : Option String
  object_id : Option Int
  deriving DecidableEq

/-- `0u64.to_be_bytes().to_vec()`: eight zero bytes. -/
def zeroSizeBytes : List Nat := List.replicate 8 0

/-- The `file_path::WhereParam` constructors used by the two filter builders,
with the binary `or!` macro as `orTwo`. -/
inductive WhereParam where
  | object_id_equals (v : Option Int)
  | cas_id_equals (v : Option String)
  | is_dir_equals (v : Option Bool)
  | location_id_equals (v : Option Int)
  | materialized_path_equals (v : Option String)
  | materialized_path_starts_with (v : String)
  | size_in_bytes_bytes_not (v : Option (List Nat))
  | id_gt (v : Int)
  | orTwo (p q : WhereParam)
  deriving DecidableEq

/-- Denotation of a `WhereParam` as a row predicate, reading the query
operators at value level: `equals` compares with the (nullable) column, `not`
negates that comparison, `starts_with` requires a present column with the
given leading string, and `gt` is strict order on ids. -/
def WhereParam.eval : WhereParam → FilePathRecord → Bool
  | .object_id_equals v, r => r.object_id == v
  | .cas_id_equals v, r => r.cas_id == v
  | .is_dir_equals v, r => r.is_dir == v
  | .location_id_equals v, r => r.location_id == v
  | .materialized_path_equals v, r => r.materialized_path == v
  | .materialized_path_starts_with v, r =>
    match r.materialized_path with
    | some s => s.startsWith v
    | none => false
  | .size_in_bytes_bytes_not v, r => !(r.size_in_bytes_bytes == v)
  | .id_gt v, r => decide (v < r.id)
  | .orTwo p q, r => p.eval r || q.eval r

/-- Modelled from the spec: `sd_utils::chain_optional_iter` (a crate outside
this module) chains the required items with the present optional items. -/
def chain_optional_iter {β : Type} (required : List β) (opt : List (Option β)) : List β :=
  required ++ opt.filterMap id

/-- `orphan_path_filters_shallow`.  `sub_children_path` stands for the
already-unwrapped
`sub_iso_file_path.materialized_path_for_children().expect(..)` (the
`IsolatedFilePathData` type lives outside this module). -/
def orphan_path_filters_shallow (location_id : Int) (file_path_id : Option Int)
    (sub_children_path : String) : List WhereParam :=
  chain_optional_iter
    [WhereParam.orTwo (.object_id_equals none) (.cas_id_equals none),
      WhereParam.is_dir_equals (some false),
      WhereParam.location_id_equals (some location_id),
      WhereParam.materialized_path_equals (some sub_children_path),
      WhereParam.size_in_bytes_bytes_not (some zeroSizeBytes)]
    [file_path_id.map WhereParam.id_gt]

/-- `orphan_path_filters_deep`.  `maybe_sub_children_path` stands for the
children path of the optional sub-path scope, when one is supplied. -/
def orphan_path_filters_deep (location_id : Int) (file_path_id : Option Int)
    (maybe_sub_children_path : Option String) : List WhereParam :=
  chain_optional_iter
    [WhereParam.orTwo (.object_id_equals none) (.cas_id_equals none),
      WhereParam.is_dir_equals (some false),
      WhereParam.location_id_equals (some location_id),
      WhereParam.size_in_bytes_bytes_not (some zeroSizeBytes)]
    [file_path_id.map WhereParam.id_gt,
      maybe_sub_children_path.map WhereParam.materialized_path_starts_with]

/-- The claim's selection predicate, common part, stated from the spec's
words: not a directory, `object_id` absent OR `cas_id` absent, the given
location, non-zero size, and id strictly beyond the cursor when one is
supplied. -/
def orphanCoreSpec (location_id : Int) (cursor : Option Int) (r : FilePathRecord) : Prop :=
  r.is_dir = some false ∧ (r.object_id = none ∨ r.cas_id = none) ∧
    r.location_id = some location_id ∧ r.size_in_bytes_bytes ≠ some zeroSizeBytes ∧
    ∀ c, cursor = some c → c < r.id

/-- Shallow mode additionally pins `materialized_path` to the exact children
path of the given directory. -/
def orphanShallowSpec (location_id : Int) (cursor : Option Int) (child_path : String)
    (r : FilePathRecord) : Prop :=
  orphanCoreSpec location_id cursor r ∧ r.materialized_path = some child_path

/-- Deep mode additionally requires `materialized_path` to start with the
children path of the optional sub-path scope; no restriction when the scope
is absent. -/
def orphanDeepSpec (location_id : Int) (cursor : Option Int) (scope : Option String)
    (r : FilePathRecord) : Prop :=
  orphanCoreSpec location_id cursor r ∧
    ∀ p, scope = some p → ∃ s, r.materialized_path = some s ∧ s.startsWith p = true

/-! ### Concrete witness inputs -/

/-- A concrete two-group input whose first group already meets the chunk
threshold. -/
def c1Input : List (Nat × List Nat) := [(0, List.replicate CHUNK_SIZE 0), (1, [7])]

/-- Witness for C3 at a concrete row, cursor, and paths. -/
def c3Row : FilePathRecord :=
  { id := 5
    location_id := some 7
    materialized_path := some "docs/sub/"
    is_dir := some false
    size_in_bytes_bytes := some [0, 0, 0, 0, 0, 0, 0, 3]
    cas_id := none
    object_id := some 11 }

/-- A concrete environment where every collaborator succeeds on a
five-byte non-directory file whose extension does not resolve. -/
def fileEnvOk : FileIdentEnv Nat Nat Nat Nat Nat :=
  { join := fun _ _ => 0
    fs_metadata := fun _ => Except.ok { is_dir := false, len := 5 }
    resolve_conflicting := fun _ => none
    ext_to_kind := fun _ => ObjectKind.Document
    generate_cas_id := fun _ _ => Except.ok "abc" }

/-- The same environment, with the metadata reporting a directory. -/
def fileEnvDir : FileIdentEnv Nat Nat Nat Nat Nat :=
  { join := fun _ _ => 0
    fs_metadata := fun _ => Except.ok { is_dir := true, len := 5 }
    resolve_conflicting := fun _ => none
    ext_to_kind := fun _ => ObjectKind.Document
    generate_cas_id := fun _ _ => Except.ok "abc" }

/-! ## Basic lemmas about `batchInsert` -/

theorem batchCount_nil : batchCount ([] : Batch κ α) = 0 := rfl

theorem batchCount_cons (k : κ) (v : List α) (b : Batch κ α) :
    batchCount ((k, v) :: b) = v.length + batchCount b := by
  simp [batchCount]

theorem batchCount_append (b₁ b₂ : Batch κ α) :
    batchCount (b₁ ++ b₂) = batchCount b₁ + batchCount b₂ := by
  simp [batchCount]

theorem batchCount_batchInsert [DecidableEq κ] (b : Batch κ α) (k : κ) (v : List α) :
    batchCount (batchInsert b k v) = batchCount b + v.length := by
  induction b with
  | nil => simp [batchInsert, batchCount]
  | cons hd tl ih =>
    obtain ⟨k₁, v₁⟩ := hd
    by_cases h : k₁ = k
    · simp [batchInsert, h, batchCount_cons]
      omega
    · simp [batchInsert, h, batchCount_cons, ih]
      omega

theorem mem_batchKeys_batchInsert [DecidableEq κ] (b : Batch κ α) (k k₁ : κ) (v : List α) :
    k₁ ∈ batchKeys (batchInsert b k v) ↔ k₁ ∈ batchKeys b ∨ k₁ = k := by
  induction b with
  | nil => simp [batchInsert, batchKeys]
  | cons hd tl ih =>
    obtain ⟨k₂, v₂⟩ := hd
    by_cases h : k₂ = k
    · subst h
      simp [batchInsert, batchKeys]
      tauto
    · simp [batchInsert, h, batchKeys] at ih ⊢
      tauto

theorem batchInsert_of_not_mem [DecidableEq κ] (b : Batch κ α) (k : κ) (v : List α)
    (h : k ∉ batchKeys b) : batchInsert b k v = b ++ [(k, v)] := by
  induction b with
  | nil => simp [batchInsert]
  | cons hd tl ih =>
    obtain ⟨k₁, v₁⟩ := hd
    simp [batchKeys] at h
    simp [batchInsert, Ne.symm h.1, ih (by simpa [batchKeys] using h.2)]

theorem lookupList_batchInsert_self [DecidableEq κ] (b : Batch κ α) (k : κ) (v : List α) :
    lookupList (batchInsert b k v) k = lookupList b k ++ v := by
  induction b with
  | nil => simp [batchInsert, lookupList]
  | cons hd tl ih =>
    obtain ⟨k₁, v₁⟩ := hd
    by_cases h : k₁ = k
    · simp [batchInsert, h, lookupList]
    · simp [batchInsert, h, lookupList, ih]

theorem lookupList_batchInsert_ne [DecidableEq κ] (b : Batch κ α) (k k₁ : κ) (v : List α)
    (h : k₁ ≠ k) : lookupList (batchInsert b k v) k₁ = lookupList b k₁ := by
  induction b with
  | nil => simp [batchInsert, lookupList, Ne.symm h]
  | cons hd tl ih =>
    obtain ⟨k₂, v₂⟩ := hd
    by_cases h₂ : k₂ = k
    · subst h₂
      simp [batchInsert, lookupList, Ne.symm h]
    · by_cases h₃ : k₂ = k₁
      · subst h₃
        simp [batchInsert, lookupList, h₂]
      · simp [batchInsert, lookupList, h₂, h₃, ih]

theorem lookupList_of_not_mem [DecidableEq κ] (b : Batch κ α) (k : κ)
    (h : k ∉ batchKeys b) : lookupList b k = [] := by
  induction b with
  | nil => rfl
  | cons hd tl ih =>
    obtain ⟨k₁, v₁⟩ := hd
    simp [batchKeys] at h
    simp [lookupList, Ne.symm h.1, ih (by simpa [batchKeys] using h.2)]

theorem batchRecords_nil : batchRecords ([] : Batch κ α) = [] := rfl

theorem batchRecords_cons (k : κ) (v : List α) (b : Batch κ α) :
    batchRecords ((k, v) :: b) = v.map (fun a => (k, a)) ++ batchRecords b := by
  simp [batchRecords]

theorem batchRecords_batchInsert [DecidableEq κ] (b : Batch κ α) (k : κ) (v : List α) :
    List.Perm (batchRecords (batchInsert b k v))
      (batchRecords b ++ v.map (fun a => (k, a))) := by
  induction b with
  | nil => simp [batchInsert, batchRecords]
  | cons hd tl ih =>
    obtain ⟨k₁, v₁⟩ := hd
    by_cases h : k₁ = k
    · subst h
      have hins : batchInsert ((k₁, v₁) :: tl) k₁ v = (k₁, v₁ ++ v) :: tl := by
        simp [batchInsert]
      rw [hins, batchRecords_cons, batchRecords_cons]
      simp only [List.map_append, List.append_assoc]
      exact List.Perm.append_left _ List.perm_append_comm
    · simp only [batchInsert, if_neg h, batchRecords_cons, List.append_assoc]
      exact List.Perm.append_left _ ih

/-! ## Equation lemmas for the dispatch loop -/

theorem dispatchLoop_nil [DecidableEq κ] (cur : Batch κ α) (sz : Nat) :
    dispatchLoop ([] : List (κ × List α)) cur sz = ([], cur, sz) := rfl

theorem dispatchLoop_cons_oversized [DecidableEq κ] (k : κ) (objs : List α)
    (rest : List (κ × List α)) (cur : Batch κ α) (sz : Nat) (h : CHUNK_SIZE ≤ objs.length) :
    dispatchLoop ((k, objs) :: rest) cur sz =
      ([(k, objs)] :: (dispatchLoop rest cur sz).1, (dispatchLoop rest cur sz).2) := by
  simp [dispatchLoop, h]

theorem dispatchLoop_cons_flush [DecidableEq κ] (k : κ) (objs : List α)
    (rest : List (κ × List α)) (cur : Batch κ α) (sz : Nat) (h : ¬ CHUNK_SIZE ≤ objs.length)
    (h₂ : CHUNK_SIZE ≤ sz + objs.length) :
    dispatchLoop ((k, objs) :: rest) cur sz =
      (batchInsert cur k objs :: (dispatchLoop rest [] 0).1, (dispatchLoop rest [] 0).2) := by
  simp [dispatchLoop, h, h₂]

theorem dispatchLoop_cons_accum [DecidableEq κ] (k : κ) (objs : List α)
    (rest : List (κ × List α)) (cur : Batch κ α) (sz : Nat) (h : ¬ CHUNK_SIZE ≤ objs.length)
    (h₂ : ¬ CHUNK_SIZE ≤ sz + objs.length) :
    dispatchLoop ((k, objs) :: rest) cur sz =
      dispatchLoop rest (batchInsert cur k objs) (sz + objs.length) := by
  simp [dispatchLoop, h, h₂]

/-! ## Conservation, thresholds and size bounds of the loop -/

theorem dispatchLoop_conservation [DecidableEq κ] (input : List (κ × List α)) :
    ∀ (cur : Batch κ α) (sz : Nat),
      ((dispatchLoop input cur sz).1.map batchCount).sum +
          batchCount (dispatchLoop input cur sz).2.1 =
        batchCount input + batchCount cur := by
  induction input with
  | nil => intro cur sz; simp [dispatchLoop_nil, batchCount_nil]
  | cons hd rest ih =>
    obtain ⟨k, objs⟩ := hd
    intro cur sz
    by_cases h₁ : CHUNK_SIZE ≤ objs.length
    · rw [dispatchLoop_cons_oversized k objs rest cur sz h₁]
      have h := ih cur sz
      simp only [List.map_cons, List.sum_cons, batchCount_cons, batchCount_nil]
      omega
    · by_cases h₂ : CHUNK_SIZE ≤ sz + objs.length
      · rw [dispatchLoop_cons_flush k objs rest cur sz h₁ h₂]
        have h := ih [] 0
        simp only [List.map_cons, List.sum_cons, batchCount_cons, batchCount_nil,
          batchCount_batchInsert] at h ⊢
        omega
      · rw [dispatchLoop_cons_accum k objs rest cur sz h₁ h₂]
        have h := ih (batchInsert cur k objs) (sz + objs.length)
        simp only [batchCount_cons, batchCount_batchInsert] at h ⊢
        omega

theorem dispatchLoop_invariants [DecidableEq κ] (input : List (κ × List α)) :
    ∀ (cur : Batch κ α) (sz : Nat), batchCount cur = sz → sz < CHUNK_SIZE →
      (batchCount (dispatchLoop input cur sz).2.1 = (dispatchLoop input cur sz).2.2 ∧
        (dispatchLoop input cur sz).2.2 < CHUNK_SIZE) ∧
      ∀ u ∈ (dispatchLoop input cur sz).1,
        (CHUNK_SIZE ≤ batchCount u ∧ batchCount u ≤ 2 * CHUNK_SIZE - 2) ∨
          ∃ k objs, u = [(k, objs)] ∧ CHUNK_SIZE ≤ objs.length := by
  have hC : CHUNK_SIZE = 100 := rfl
  induction input with
  | nil =>
    intro cur sz hc hlt
    rw [dispatchLoop_nil]
    exact ⟨⟨hc, hlt⟩, fun u hu => absurd hu (List.not_mem_nil u)⟩
  | cons hd rest ih =>
    obtain ⟨k, objs⟩ := hd
    intro cur sz hc hlt
    by_cases h₁ : CHUNK_SIZE ≤ objs.length
    · rw [dispatchLoop_cons_oversized k objs rest cur sz h₁]
      obtain ⟨hstate, htasks⟩ := ih cur sz hc hlt
      refine ⟨hstate, ?_⟩
      intro u hu
      rcases List.mem_cons.mp hu with rfl | hu₂
      · exact Or.inr ⟨k, objs, rfl, h₁⟩
      · exact htasks u hu₂
    · by_cases h₂ : CHUNK_SIZE ≤ sz + objs.length
      · rw [dispatchLoop_cons_flush k objs rest cur sz h₁ h₂]
        obtain ⟨hstate, htasks⟩ := ih [] 0 rfl (by omega)
        refine ⟨hstate, ?_⟩
        intro u hu
        rcases List.mem_cons.mp hu with rfl | hu₂
        · left
          rw [batchCount_batchInsert, hc]
          omega
        · exact htasks u hu₂
      · rw [dispatchLoop_cons_accum k objs rest cur sz h₁ h₂]
        exact ih (batchInsert cur k objs) (sz + objs.length)
          (by rw [batchCount_batchInsert, hc]) (by omega)

theorem mem_dispatchLoop_of_oversized [DecidableEq κ] (k : κ) (objs : List α)
    (h : CHUNK_SIZE ≤ objs.length) (input : List (κ × List α)) :
    (k, objs) ∈ input → ∀ (cur : Batch κ α) (sz : Nat),
      [(k, objs)] ∈ (dispatchLoop input cur sz).1 := by
  induction input with
  | nil => intro hmem; cases hmem
  | cons hd rest ih =>
    intro hmem cur sz
    obtain ⟨k₁, objs₁⟩ := hd
    rcases List.mem_cons.mp hmem with heq | hmem₂
    · injection heq with e₁ e₂
      subst e₁
      subst e₂
      rw [dispatchLoop_cons_oversized k objs rest cur sz h]
      exact List.mem_cons_self _ _
    · by_cases h₁ : CHUNK_SIZE ≤ objs₁.length
      · rw [dispatchLoop_cons_oversized k₁ objs₁ rest cur sz h₁]
        exact List.mem_cons_of_mem _ (ih hmem₂ cur sz)
      · by_cases h₂ : CHUNK_SIZE ≤ sz + objs₁.length
        · rw [dispatchLoop_cons_flush k₁ objs₁ rest cur sz h₁ h₂]
          exact List.mem_cons_of_mem _ (ih hmem₂ [] 0)
        · rw [dispatchLoop_cons_accum k₁ objs₁ rest cur sz h₁ h₂]
          exact ih hmem₂ _ _

theorem mem_dispatch_of_mem_loop [DecidableEq κ] (input : List (κ × List α)) (u : Batch κ α)
    (hu : u ∈ (dispatchLoop input ([] : Batch κ α) 0).1) :
    u ∈ dispatch_object_processor_tasks input := by
  unfold dispatch_object_processor_tasks
  split
  · exact hu
  · exact List.mem_append_left _ hu

/-- C1: every input pair whose group already holds at least `CHUNK_SIZE` records
is dispatched as a standalone unit containing exactly that group, and every
dispatched unit except possibly the trailing leftover flush has aggregate
record count at least `CHUNK_SIZE`. -/
theorem C1_oversized_standalone_and_chunk_lower_bound [DecidableEq κ]
    (input : List (κ × List α)) :
    (∀ k objs, (k, objs) ∈ input → CHUNK_SIZE ≤ objs.length →
      [(k, objs)] ∈ dispatch_object_processor_tasks input) ∧
    ∀ u ∈ (dispatch_object_processor_tasks input).dropLast, CHUNK_SIZE ≤ batchCount u := by
  have hC : CHUNK_SIZE = 100 := rfl
  constructor
  · intro k objs hmem h
    exact mem_dispatch_of_mem_loop input _ (mem_dispatchLoop_of_oversized k objs h input hmem [] 0)
  · intro u hu
    have hinv := dispatchLoop_invariants input [] 0 rfl (by omega)
    have humem : u ∈ (dispatchLoop input ([] : Batch κ α) 0).1 := by
      unfold dispatch_object_processor_tasks at hu
      split at hu
      · exact (List.dropLast_sublist _).subset hu
      · rwa [List.dropLast_concat] at hu
    rcases hinv.2 u humem with ⟨hge, _⟩ | ⟨k, objs, rfl, hlen⟩
    · exact hge
    · rw [batchCount_cons, batchCount_nil]
      omega

/-- C2: conservation — the sum of record counts over all dispatched units
equals the total number of records in the input; no record is dropped or
duplicated. -/
theorem C2_conservation [DecidableEq κ] (input : List (κ × List α)) :
    ((dispatch_object_processor_tasks input).map batchCount).sum = batchCount input := by
  have h := dispatchLoop_conservation input ([] : Batch κ α) 0
  rw [batchCount_nil, Nat.add_zero] at h
  unfold dispatch_object_processor_tasks
  split
  next he =>
    have h0 : batchCount (dispatchLoop input ([] : Batch κ α) 0).2.1 = 0 := by
      rw [List.isEmpty_iff.mp he, batchCount_nil]
    omega
  next he =>
    rw [List.map_append, List.sum_append]
    simp only [List.map_cons, List.map_nil, List.sum_cons, List.sum_nil]
    omega

/-- C10: whenever the input splits as `pre ++ post`, the running accumulator
count after consuming `pre` is strictly below `CHUNK_SIZE`; consequently every
dispatched unit either was flushed from the accumulator, with at most
`2 * CHUNK_SIZE - 2` records, or is a standalone unit for a single group of at
least `CHUNK_SIZE` records. -/
theorem C10_accumulator_invariant_and_flush_upper_bound [DecidableEq κ]
    (input pre post : List (κ × List α)) (_hsplit : input = pre ++ post) :
    (dispatchLoop pre ([] : Batch κ α) 0).2.2 < CHUNK_SIZE ∧
    ∀ u ∈ dispatch_object_processor_tasks input,
      batchCount u ≤ 2 * CHUNK_SIZE - 2 ∨
        ∃ k objs, u = [(k, objs)] ∧ CHUNK_SIZE ≤ objs.length := by
  have hC : CHUNK_SIZE = 100 := rfl
  constructor
  · exact ((dispatchLoop_invariants pre [] 0 rfl (by omega)).1).2
  · intro u hu
    have hinv := dispatchLoop_invariants input [] 0 rfl (by omega)
    unfold dispatch_object_processor_tasks at hu
    split at hu
    next he =>
      rcases hinv.2 u hu with ⟨_, hb⟩ | hstand
      · exact Or.inl hb
      · exact Or.inr hstand
    next he =>
      rcases List.mem_append.mp hu with hu₁ | hu₂
      · rcases hinv.2 u hu₁ with ⟨_, hb⟩ | hstand
        · exact Or.inl hb
        · exact Or.inr hstand
      · left
        have hueq : u = (dispatchLoop input ([] : Batch κ α) 0).2.1 := by
          simpa using hu₂
        rw [hueq, hinv.1.1]
        have := hinv.1.2
        omega

/-! ## The accumulator merge `accumulate_file_paths_by_cas_id` -/

theorem accumulate_nil [DecidableEq κ] (acc : Batch κ α) :
    accumulate_file_paths_by_cas_id [] acc = acc := rfl

theorem accumulate_cons [DecidableEq κ] (k : κ) (v : List α) (rest acc : Batch κ α) :
    accumulate_file_paths_by_cas_id ((k, v) :: rest) acc =
      accumulate_file_paths_by_cas_id rest (batchInsert acc k v) := rfl

theorem batchKeys_append (b₁ b₂ : Batch κ α) :
    batchKeys (b₁ ++ b₂) = batchKeys b₁ ++ batchKeys b₂ := by
  simp [batchKeys]

theorem batchRecords_accumulate [DecidableEq κ] (input : Batch κ α) :
    ∀ acc : Batch κ α,
      List.Perm (batchRecords (accumulate_file_paths_by_cas_id input acc))
        (batchRecords acc ++ batchRecords input) := by
  induction input with
  | nil => intro acc; simp [accumulate_nil, batchRecords_nil]
  | cons hd rest ih =>
    obtain ⟨k, v⟩ := hd
    intro acc
    rw [accumulate_cons, batchRecords_cons]
    have h1 := ih (batchInsert acc k v)
    have h2 := (batchRecords_batchInsert acc k v).append_right (batchRecords rest)
    simpa [List.append_assoc] using h1.trans h2

theorem mem_batchKeys_accumulate [DecidableEq κ] (input : Batch κ α) :
    ∀ (acc : Batch κ α) (k : κ),
      k ∈ batchKeys (accumulate_file_paths_by_cas_id input acc) ↔
        k ∈ batchKeys acc ∨ k ∈ batchKeys input := by
  induction input with
  | nil => intro acc k; simp [accumulate_nil, batchKeys]
  | cons hd rest ih =>
    obtain ⟨k₁, v₁⟩ := hd
    intro acc k
    rw [accumulate_cons, ih, mem_batchKeys_batchInsert]
    simp [batchKeys]
    tauto

theorem lookupList_accumulate [DecidableEq κ] (input : Batch κ α) :
    ∀ acc : Batch κ α, (batchKeys input).Nodup → ∀ k,
      lookupList (accumulate_file_paths_by_cas_id input acc) k =
        lookupList acc k ++ lookupList input k := by
  induction input with
  | nil => intro acc _ k; simp [accumulate_nil, lookupList]
  | cons hd rest ih =>
    obtain ⟨k₁, v₁⟩ := hd
    intro acc hnd k
    have hnd₁ : (k₁ :: batchKeys rest).Nodup := by simpa [batchKeys] using hnd
    have hnd' : (batchKeys rest).Nodup := hnd₁.of_cons
    have hk₁ : k₁ ∉ batchKeys rest := (List.nodup_cons.mp hnd₁).1
    rw [accumulate_cons, ih _ hnd']
    by_cases h : k = k₁
    · subst h
      rw [lookupList_batchInsert_self, lookupList_of_not_mem rest k hk₁]
      simp [lookupList]
    · rw [lookupList_batchInsert_ne acc k₁ k v₁ h]
      simp [lookupList, Ne.symm h]

/-- C6: merging an input map into the accumulator concatenates per key
(accumulator list first), the key set of the result is the union of the two
key sets, the multiset of `(ContentId, record)` pairs of the result is the
union of the two multisets, and the result is multiset-invariant under
reordering of the input map's iteration order. -/
theorem C6_accumulate_is_per_key_concatenation [DecidableEq κ]
    (input accumulator : Batch κ α) (hnd : (batchKeys input).Nodup) :
    (∀ k, lookupList (accumulate_file_paths_by_cas_id input accumulator) k =
        lookupList accumulator k ++ lookupList input k) ∧
    (∀ k, k ∈ batchKeys (accumulate_file_paths_by_cas_id input accumulator) ↔
        k ∈ batchKeys accumulator ∨ k ∈ batchKeys input) ∧
    List.Perm (batchRecords (accumulate_file_paths_by_cas_id input accumulator))
      (batchRecords accumulator ++ batchRecords input) ∧
    ∀ input₂, List.Perm input₂ input →
      List.Perm (batchRecords (accumulate_file_paths_by_cas_id input₂ accumulator))
        (batchRecords (accumulate_file_paths_by_cas_id input accumulator)) := by
  refine ⟨lookupList_accumulate input accumulator hnd,
    fun k => mem_batchKeys_accumulate input accumulator k,
    batchRecords_accumulate input accumulator, ?_⟩
  intro input₂ hperm
  have hr : List.Perm (batchRecords input₂) (batchRecords input) := hperm.flatMap_right _
  exact (batchRecords_accumulate input₂ accumulator).trans
    ((List.Perm.append_left _ hr).trans (batchRecords_accumulate input accumulator).symm)

/-! ## No group is split across dispatched units -/

theorem dispatchLoop_flatten_perm [DecidableEq κ] (input : List (κ × List α)) :
    ∀ (cur : Batch κ α) (sz : Nat), (batchKeys cur ++ batchKeys input).Nodup →
      List.Perm ((dispatchLoop input cur sz).1.flatten ++ (dispatchLoop input cur sz).2.1)
        (cur ++ input) := by
  induction input with
  | nil =>
    intro cur sz _
    simp [dispatchLoop_nil]
  | cons hd rest ih =>
    obtain ⟨k, objs⟩ := hd
    intro cur sz hnd
    have hkeys : batchKeys ((k, objs) :: rest) = k :: batchKeys rest := rfl
    rw [hkeys] at hnd
    have hknotcur : k ∉ batchKeys cur := by
      rcases (List.nodup_append.mp hnd) with ⟨_, _, hdisj⟩
      exact fun hk => hdisj hk (List.mem_cons_self _ _)
    have hndrest : (batchKeys cur ++ batchKeys rest).Nodup := by
      refine List.Nodup.sublist ?_ hnd
      exact List.Sublist.append_left (List.sublist_cons_self _ _) _
    by_cases h₁ : CHUNK_SIZE ≤ objs.length
    · rw [dispatchLoop_cons_oversized k objs rest cur sz h₁]
      have ihp := ih cur sz hndrest
      simp only [List.flatten_cons, List.singleton_append, List.cons_append]
      exact (List.Perm.cons (k, objs) ihp).trans List.perm_middle.symm
    · by_cases h₂ : CHUNK_SIZE ≤ sz + objs.length
      · rw [dispatchLoop_cons_flush k objs rest cur sz h₁ h₂,
          batchInsert_of_not_mem cur k objs hknotcur]
        have hndnil : (batchKeys ([] : Batch κ α) ++ batchKeys rest).Nodup := by
          refine List.Nodup.sublist ?_ hnd
          simp [batchKeys]
        have ihp : List.Perm ((dispatchLoop rest ([] : Batch κ α) 0).1.flatten ++
            (dispatchLoop rest ([] : Batch κ α) 0).2.1) rest := by
          simpa using ih [] 0 hndnil
        simp only [List.flatten_cons, List.append_assoc, List.singleton_append,
          List.cons_append]
        exact List.Perm.append_left cur (List.Perm.cons (k, objs) ihp)
      · rw [dispatchLoop_cons_accum k objs rest cur sz h₁ h₂,
          batchInsert_of_not_mem cur k objs hknotcur]
        have hnd₂ : (batchKeys (cur ++ [(k, objs)]) ++ batchKeys rest).Nodup := by
          rw [batchKeys_append]
          simpa [batchKeys, List.append_assoc] using hnd
        have := ih (cur ++ [(k, objs)]) (sz + objs.length) hnd₂
        simpa [List.append_assoc] using this

theorem dispatch_flatten_perm [DecidableEq κ] (input : List (κ × List α))
    (hnd : (batchKeys input).Nodup) :
    List.Perm (dispatch_object_processor_tasks input).flatten input := by
  have h := dispatchLoop_flatten_perm input ([] : Batch κ α) 0 (by simpa [batchKeys] using hnd)
  rw [List.nil_append] at h
  unfold dispatch_object_processor_tasks
  split
  next he =>
    rw [List.isEmpty_iff.mp he, List.append_nil] at h
    exact h
  next he =>
    simpa using h

/-- C5 (amended): with pairwise-distinct keys, the concatenation of the
dispatched units is a permutation of the input — no group is dropped,
duplicated, or split across two units — and the key sets of distinct units are
pairwise disjoint.  (The minimality part of the claim fails on the code; see
the accompanying counterexample.) -/
theorem C5_no_group_split [DecidableEq κ] (input : List (κ × List α))
    (hnd : (batchKeys input).Nodup) :
    List.Perm (dispatch_object_processor_tasks input).flatten input ∧
    ((dispatch_object_processor_tasks input).map batchKeys).Pairwise List.Disjoint := by
  have hp := dispatch_flatten_perm input hnd
  refine ⟨hp, ?_⟩
  have hkeysperm : List.Perm (batchKeys (dispatch_object_processor_tasks input).flatten)
      (batchKeys input) := hp.map Prod.fst
  have hnodup : (batchKeys (dispatch_object_processor_tasks input).flatten).Nodup :=
    hkeysperm.nodup_iff.mpr hnd
  have hmap : batchKeys (dispatch_object_processor_tasks input).flatten =
      ((dispatch_object_processor_tasks input).map batchKeys).flatten := by
    simp [batchKeys, List.map_flatten]
    rfl
  rw [hmap] at hnodup
  exact (List.nodup_flatten.mp hnodup).2

/-- C5 (counterexample): on two distinct groups of exactly `CHUNK_SIZE` records
each, the code dispatches two units, yet one single unit holding both groups
satisfies every constraint of the claim (no non-final unit under threshold, no
group split) — so the code does not produce the minimum possible number of
units. -/
theorem C5_counterexample_not_minimal :
    validDispatch c5Input [c5Input] ∧
    ([c5Input] : List (Batch Nat Nat)).length < (dispatch_object_processor_tasks c5Input).length := by
  refine ⟨⟨by simp, ?_, ?_⟩, ?_⟩
  · intro u hu
    simp at hu
  · intro u hu
    simp only [List.mem_singleton] at hu
    subst hu
    simp [c5Input]
  · decide

/-! ## Dispatching an oversized group is a frame action -/

theorem insertAt_succ_cons {β : Type} (n : Nat) (a x : β) (l : List β) :
    insertAt (n + 1) a (x :: l) = x :: insertAt n a l := rfl

theorem insertAt_append {β : Type} (a : β) :
    ∀ (n : Nat) (l₁ l₂ : List β), n ≤ l₁.length →
      insertAt n a (l₁ ++ l₂) = insertAt n a l₁ ++ l₂
  | 0, _, _, _ => rfl
  | n + 1, [], _, h => by simp at h
  | n + 1, x :: l₁, l₂, h => by
    simp only [List.cons_append, insertAt_succ_cons]
    rw [insertAt_append a n l₁ l₂ (by simpa using h)]

theorem dispatchLoop_insert_oversized [DecidableEq κ] (k : κ) (objs : List α)
    (post : List (κ × List α)) (h : CHUNK_SIZE ≤ objs.length) :
    ∀ (pre : List (κ × List α)) (cur : Batch κ α) (sz : Nat),
      (dispatchLoop (pre ++ (k, objs) :: post) cur sz).2 =
        (dispatchLoop (pre ++ post) cur sz).2 ∧
      ∃ n, n ≤ (dispatchLoop (pre ++ post) cur sz).1.length ∧
        (dispatchLoop (pre ++ (k, objs) :: post) cur sz).1 =
          insertAt n [(k, objs)] (dispatchLoop (pre ++ post) cur sz).1 := by
  intro pre
  induction pre with
  | nil =>
    intro cur sz
    rw [List.nil_append, List.nil_append, dispatchLoop_cons_oversized k objs post cur sz h]
    exact ⟨rfl, 0, Nat.zero_le _, rfl⟩
  | cons hd pre ih =>
    obtain ⟨k₁, objs₁⟩ := hd
    intro cur sz
    rw [List.cons_append, List.cons_append]
    by_cases h₁ : CHUNK_SIZE ≤ objs₁.length
    · rw [dispatchLoop_cons_oversized k₁ objs₁ (pre ++ (k, objs) :: post) cur sz h₁,
        dispatchLoop_cons_oversized k₁ objs₁ (pre ++ post) cur sz h₁]
      obtain ⟨hst, n, hn, he⟩ := ih cur sz
      refine ⟨hst, n + 1, by simpa using Nat.succ_le_succ hn, ?_⟩
      rw [insertAt_succ_cons, he]
    · by_cases h₂ : CHUNK_SIZE ≤ sz + objs₁.length
      · rw [dispatchLoop_cons_flush k₁ objs₁ (pre ++ (k, objs) :: post) cur sz h₁ h₂,
          dispatchLoop_cons_flush k₁ objs₁ (pre ++ post) cur sz h₁ h₂]
        obtain ⟨hst, n, hn, he⟩ := ih [] 0
        refine ⟨hst, n + 1, by simpa using Nat.succ_le_succ hn, ?_⟩
        rw [insertAt_succ_cons, he]
      · rw [dispatchLoop_cons_accum k₁ objs₁ (pre ++ (k, objs) :: post) cur sz h₁ h₂,
          dispatchLoop_cons_accum k₁ objs₁ (pre ++ post) cur sz h₁ h₂]
        exact ih _ _

/-- C9: an input pair whose group holds at least `CHUNK_SIZE` records leaves
the running accumulator and the running count unchanged, and its presence
anywhere in the input only inserts its standalone unit into the dispatched
stream: every other dispatched unit is exactly as it would be without it. -/
theorem C9_oversized_dispatch_is_frame [DecidableEq κ] (pre post : List (κ × List α))
    (k : κ) (objs : List α) (h : CHUNK_SIZE ≤ objs.length) :
    (dispatchLoop (pre ++ (k, objs) :: post) ([] : Batch κ α) 0).2 =
      (dispatchLoop (pre ++ post) ([] : Batch κ α) 0).2 ∧
    ∃ n, dispatch_object_processor_tasks (pre ++ (k, objs) :: post) =
      insertAt n [(k, objs)] (dispatch_object_processor_tasks (pre ++ post)) := by
  obtain ⟨hst, n, hn, he⟩ := dispatchLoop_insert_oversized k objs post h pre ([] : Batch κ α) 0
  refine ⟨hst, n, ?_⟩
  unfold dispatch_object_processor_tasks
  rw [show (dispatchLoop (pre ++ (k, objs) :: post) ([] : Batch κ α) 0).2.1 =
      (dispatchLoop (pre ++ post) ([] : Batch κ α) 0).2.1 from congrArg Prod.fst hst, he]
  by_cases hcase : (dispatchLoop (pre ++ post) ([] : Batch κ α) 0).2.1.isEmpty = true
  · simp [hcase]
  · simp only [hcase, if_false, Bool.false_eq_true]
    rw [insertAt_append [(k, objs)] n _ _ hn]

/-! ## The orphan filter predicates -/

/-- C3: the shallow and deep orphan filter lists select exactly the records
that are not directories, have `object_id` absent OR `cas_id` absent, belong
to the given location, have non-zero size, and lie strictly beyond the resume
cursor when one is supplied; shallow mode pins `materialized_path` to the
exact children path of the given directory, deep mode only requires it to
start with the children path of the optional sub-path scope. -/
theorem C3_orphan_filters_characterization (location_id : Int) (cursor : Option Int)
    (child_path : String) (scope : Option String) (r : FilePathRecord) :
    (((orphan_path_filters_shallow location_id cursor child_path).all
        (fun p => p.eval r)) = true ↔ orphanShallowSpec location_id cursor child_path r) ∧
    (((orphan_path_filters_deep location_id cursor scope).all
        (fun p => p.eval r)) = true ↔ orphanDeepSpec location_id cursor scope r) := by
  constructor
  · cases cursor with
    | none =>
      simp [orphan_path_filters_shallow, chain_optional_iter, WhereParam.eval,
        orphanShallowSpec, orphanCoreSpec]
      tauto
    | some c =>
      simp [orphan_path_filters_shallow, chain_optional_iter, WhereParam.eval,
        orphanShallowSpec, orphanCoreSpec]
      tauto
  · cases scope with
    | none =>
      cases cursor with
      | none =>
        simp [orphan_path_filters_deep, chain_optional_iter, WhereParam.eval,
          orphanDeepSpec, orphanCoreSpec]
        tauto
      | some c =>
        simp [orphan_path_filters_deep, chain_optional_iter, WhereParam.eval,
          orphanDeepSpec, orphanCoreSpec]
        tauto
    | some p =>
      cases hmp : r.materialized_path with
      | none =>
        cases cursor with
        | none =>
          simp [orphan_path_filters_deep, chain_optional_iter, WhereParam.eval,
            orphanDeepSpec, orphanCoreSpec, hmp]
        | some c =>
          simp [orphan_path_filters_deep, chain_optional_iter, WhereParam.eval,
            orphanDeepSpec, orphanCoreSpec, hmp]
      | some s =>
        cases cursor with
        | none =>
          simp [orphan_path_filters_deep, chain_optional_iter, WhereParam.eval,
            orphanDeepSpec, orphanCoreSpec, hmp]
          tauto
        | some c =>
          simp [orphan_path_filters_deep, chain_optional_iter, WhereParam.eval,
            orphanDeepSpec, orphanCoreSpec, hmp]
          tauto

/-! ## `FileMetadata::new` -/

/-- C4: when `FileMetadata::new` returns successfully, the returned `cas_id`
is present iff the file's size is positive; zero-length files always yield an
absent identifier. -/
theorem C4_cas_id_present_iff_size_positive {L I P E Err : Type}
    (env : FileIdentEnv L I P E Err) (location_path : L) (iso_file_path : I)
    (m : FileMetadata)
    (h : FileMetadata.new env location_path iso_file_path = FMResult.ok m) :
    (∃ c, m.cas_id = some c) ↔ 0 < m.fs_metadata.len := by
  unfold FileMetadata.new at h
  cases hm : env.fs_metadata (env.join location_path iso_file_path) with
  | error e => rw [hm] at h; simp at h
  | ok fs_md =>
    rw [hm] at h
    by_cases hdir : fs_md.is_dir
    · simp [hdir] at h
    · simp only [hdir, Bool.false_eq_true, if_false] at h
      by_cases hlen : fs_md.len = 0
      · simp only [hlen, ne_eq, not_true_eq_false, if_false] at h
        injection h with h₁
        subst h₁
        simp [hlen]
      · simp only [ne_eq, hlen, not_false_eq_true, if_true] at h
        cases hg : env.generate_cas_id (env.join location_path iso_file_path) fs_md.len with
        | error e => rw [hg] at h; simp [Except.map] at h
        | ok c =>
          rw [hg] at h
          simp only [Except.map] at h
          injection h with h₁
          subst h₁
          constructor
          · intro _
            exact Nat.pos_of_ne_zero hlen
          · intro _
            exact ⟨c, rfl⟩

/-- C7: handing `FileMetadata::new` a directory is a programmer error — when
the metadata read reports a non-directory the `assert!` branch is unreachable,
and when it reports a directory the function fails defensively with the
assertion message instead of returning a result. -/
theorem C7_directory_assertion_defensive {L I P E Err : Type}
    (env : FileIdentEnv L I P E Err) (location_path : L) (iso_file_path : I) :
    (∀ fs_md, env.fs_metadata (env.join location_path iso_file_path) = Except.ok fs_md →
      fs_md.is_dir = false →
      ∀ msg, FileMetadata.new env location_path iso_file_path ≠ FMResult.panicked msg) ∧
    (∀ fs_md, env.fs_metadata (env.join location_path iso_file_path) = Except.ok fs_md →
      fs_md.is_dir = true →
      FileMetadata.new env location_path iso_file_path =
        FMResult.panicked "We can't generate cas_id for directories") := by
  constructor
  · intro fs_md hm hdir msg hcontra
    unfold FileMetadata.new at hcontra
    rw [hm] at hcontra
    simp only [hdir, Bool.false_eq_true, if_false] at hcontra
    by_cases hlen : fs_md.len = 0
    · simp only [hlen, ne_eq, not_true_eq_false, if_false] at hcontra
      cases hcontra
    · simp only [ne_eq, hlen, not_false_eq_true, if_true] at hcontra
      cases hg : env.generate_cas_id (env.join location_path iso_file_path) fs_md.len with
      | error e => rw [hg] at hcontra; simp [Except.map] at hcontra
      | ok c => rw [hg] at hcontra; simp [Except.map] at hcontra
  · intro fs_md hm hdir
    unfold FileMetadata.new
    rw [hm]
    simp [hdir]

/-- C8: a failure to resolve the content-kind classification is never fatal —
if the metadata read succeeds for a non-directory and the identifier
computation (when the size is non-zero) succeeds, the function returns
successfully with the kind defaulted to `Unknown`. -/
theorem C8_classification_failure_never_fatal {L I P E Err : Type}
    (env : FileIdentEnv L I P E Err) (location_path : L) (iso_file_path : I)
    (fs_md : FsMetadata)
    (hm : env.fs_metadata (env.join location_path iso_file_path) = Except.ok fs_md)
    (hdir : fs_md.is_dir = false)
    (hres : env.resolve_conflicting (env.join location_path iso_file_path) = none)
    (hgen : fs_md.len = 0 ∨
      ∃ c, env.generate_cas_id (env.join location_path iso_file_path) fs_md.len =
        Except.ok c) :
    ∃ m, FileMetadata.new env location_path iso_file_path = FMResult.ok m ∧
      m.kind = ObjectKind.Unknown := by
  unfold FileMetadata.new
  rw [hm]
  simp only [hdir, Bool.false_eq_true, if_false, hres]
  by_cases hlen : fs_md.len = 0
  · simp only [hlen, ne_eq, not_true_eq_false, if_false]
    exact ⟨_, rfl, rfl⟩
  · rcases hgen with h0 | ⟨c, hc⟩
    · exact absurd h0 hlen
    · simp only [ne_eq, hlen, not_false_eq_true, if_true, hc, Except.map]
      exact ⟨_, rfl, rfl⟩

/-! ## Witnesses: the theorems with hypotheses, applied at concrete inputs -/

/-- Witness for C1 at `c1Input`. -/
theorem C1_witness :
    [((0 : Nat), List.replicate CHUNK_SIZE (0 : Nat))] ∈
      dispatch_object_processor_tasks c1Input ∧
    ∀ u ∈ (dispatch_object_processor_tasks c1Input).dropLast, CHUNK_SIZE ≤ batchCount u :=
  ⟨(C1_oversized_standalone_and_chunk_lower_bound c1Input).1 0
      (List.replicate CHUNK_SIZE 0) (by decide) (by decide),
    (C1_oversized_standalone_and_chunk_lower_bound c1Input).2⟩

/-- Witness for C3: the shallow filter accepts `c3Row`. -/
theorem C3_witness :
    ((orphan_path_filters_shallow 7 (some 3) "docs/sub/").all
      (fun p => p.eval c3Row)) = true :=
  ((C3_orphan_filters_characterization 7 (some 3) "docs/sub/" (some "docs/") c3Row).1).mpr
    (by
      refine ⟨⟨rfl, Or.inr rfl, rfl, by decide, ?_⟩, rfl⟩
      intro c hc
      injection hc with hc
      subst hc
      decide)

/-- Witness for C4 at `fileEnvOk`. -/
theorem C4_witness :
    (∃ c, (FileMetadata.mk (some "abc") ObjectKind.Unknown
        { is_dir := false, len := 5 }).cas_id = some c) ↔
      0 < (FileMetadata.mk (some "abc") ObjectKind.Unknown
        { is_dir := false, len := 5 }).fs_metadata.len :=
  C4_cas_id_present_iff_size_positive fileEnvOk 0 0 _ rfl

/-- Witness for C7: no panic on the non-directory environment, the assertion
message on the directory environment. -/
theorem C7_witness :
    (∀ msg, FileMetadata.new fileEnvOk 0 0 ≠ FMResult.panicked msg) ∧
    FileMetadata.new fileEnvDir 0 0 =
      FMResult.panicked "We can't generate cas_id for directories" :=
  ⟨(C7_directory_assertion_defensive fileEnvOk 0 0).1 { is_dir := false, len := 5 } rfl rfl,
    (C7_directory_assertion_defensive fileEnvDir 0 0).2 { is_dir := true, len := 5 } rfl rfl⟩

/-- Witness for C8 at `fileEnvOk`. -/
theorem C8_witness :
    ∃ m, FileMetadata.new fileEnvOk 0 0 = FMResult.ok m ∧ m.kind = ObjectKind.Unknown :=
  C8_classification_failure_never_fatal fileEnvOk 0 0 { is_dir := false, len := 5 }
    rfl rfl rfl (Or.inr ⟨"abc", rfl⟩)

/-- Witness for the amended C5 at a concrete two-key input. -/
theorem C5_witness :
    List.Perm (dispatch_object_processor_tasks [((0 : Nat), [(1 : Nat)]), (1, [2])]).flatten
      [((0 : Nat), [(1 : Nat)]), (1, [2])] ∧
    ((dispatch_object_processor_tasks [((0 : Nat), [(1 : Nat)]), (1, [2])]).map
      batchKeys).Pairwise List.Disjoint :=
  C5_no_group_split [((0 : Nat), [(1 : Nat)]), (1, [2])] (by decide)

/-- Witness for C6 at a concrete input and accumulator. -/
theorem C6_witness :
    lookupList
      (accumulate_file_paths_by_cas_id [((0 : Nat), [(1 : Nat)]), (1, [2, 3])] [(0, [9])])
      0 = [9, 1] := by
  rw [(C6_accumulate_is_per_key_concatenation [((0 : Nat), [(1 : Nat)]), (1, [2, 3])]
    [(0, [9])] (by decide)).1 0]
  decide

/-- Witness for C9: an oversized group at the front of a two-pair input. -/
theorem C9_witness :
    (dispatchLoop ([] ++ ((0 : Nat), List.replicate 100 (0 : Nat)) :: [(1, [5])])
        ([] : Batch Nat Nat) 0).2 =
      (dispatchLoop ([] ++ [(1, [5])]) ([] : Batch Nat Nat) 0).2 ∧
    ∃ n, dispatch_object_processor_tasks
        ([] ++ ((0 : Nat), List.replicate 100 (0 : Nat)) :: [(1, [5])]) =
      insertAt n [(0, List.replicate 100 0)]
        (dispatch_object_processor_tasks ([] ++ [(1, [5])])) :=
  C9_oversized_dispatch_is_frame [] [(1, [5])] 0 (List.replicate 100 0) (by decide)

/-- Witness for C10 at a concrete split of a two-pair input. -/
theorem C10_witness :
    (dispatchLoop [((0 : Nat), [(1 : Nat)])] ([] : Batch Nat Nat) 0).2.2 < CHUNK_SIZE ∧
    ∀ u ∈ dispatch_object_processor_tasks [((0 : Nat), [(1 : Nat)]), (1, [2])],
      batchCount u ≤ 2 * CHUNK_SIZE - 2 ∨
        ∃ k objs, u = [(k, objs)] ∧ CHUNK_SIZE ≤ objs.length :=
  C10_accumulator_invariant_and_flush_upper_bound [((0 : Nat), [(1 : Nat)]), (1, [2])]
    [(0, [1])] [(1, [2])] rfl

end FileIdentifier
